import Mathlib

/-!
# Verification of the Cloudflare DNS reconciliation script

Shallow embedding of `scripts/cloudflare_dns.py` (the DNS reconciliation
script of the wp-setup repository) and proofs about it.

Modelling conventions:
* YAML values are modelled by the inductive `Val`; a parsed configuration
  document is a `List (String × Val)` (the root mapping, keys unique in
  practice; lookups take the first binding like a Python dict).
* Python dynamic conversions (`str`, `int`, truthiness, `_as_bool`) are
  modelled by `pyStr`, `pyInt`, `truthy`, `as_bool`, each following the
  corresponding CPython behaviour on the value shapes that can occur here.
  The textual `repr` of list/map containers is abbreviated: only the fact
  that it starts with a bracket character (so it is never FQDN-shaped and
  never equal to "auto") matters to any property proved below.
* Network effects are made explicit parameters: public-IP probe responses
  become a `List ProbeResult`, the Cloudflare zone list becomes a
  `List ZoneInfo`, and the record store behind
  `find_dns_record` / `create_dns_record` / `update_dns_record` becomes a
  `Provider` function from the record identity to an optional live record.
  Records are addressed by zone *name*; in the script the API is addressed
  by the zone id obtained from the per-run `zone_name_to_id` map, so
  addressing by the name that indexes that map is the same function.
-/

namespace WpSetup

/-! ## Python string primitives

Structural (kernel-computable) models of the Python string operations the
script uses.  They agree with CPython on the ASCII strings that occur in
DNS names, configuration keys and the script's literals. -/

/-- Lowercase one character (ASCII, as Python `str.lower`). -/
def pyLowerChar (c : Char) : Char :=
  if 'A' ≤ c ∧ c ≤ 'Z' then Char.ofNat (c.toNat + 32) else c

/-- Python `str.lower()`. -/
def pyLower (s : String) : String :=
  String.mk (s.toList.map pyLowerChar)

/-- Python `str.strip()` (no argument): remove leading and trailing
whitespace. -/
def pyStrip (s : String) : String :=
  String.mk (((s.toList.dropWhile Char.isWhitespace).reverse.dropWhile
    Char.isWhitespace).reverse)

/-- Python `str.startswith(p)`. -/
def strStartsWith (s p : String) : Bool :=
  p.toList.isPrefixOf s.toList

/-- Python `str.endswith(p)`. -/
def strEndsWith (s p : String) : Bool :=
  p.toList.isSuffixOf s.toList

/-- Digit-run parser for `pyToInt?`. -/
def digitsToNat : List Char → Option Nat
  | [] => none
  | cs =>
      if cs.all Char.isDigit then
        some (cs.foldl (fun acc c => acc * 10 + (c.toNat - '0'.toNat)) 0)
      else none

/-- Python `int(s)` on a stripped string: optional sign followed by a
non-empty digit run. -/
def pyToInt? (s : String) : Option Int :=
  match (pyStrip s).toList with
  | '-' :: cs => (digitsToNat cs).map (fun n => -(n : Int))
  | '+' :: cs => (digitsToNat cs).map (fun n => (n : Int))
  | cs => (digitsToNat cs).map (fun n => (n : Int))

/-- Worker for `strLt`. -/
def strLtGo : List Char → List Char → Bool
  | [], [] => false
  | [], _ :: _ => true
  | _ :: _, [] => false
  | x :: xs, y :: ys =>
      if x.toNat < y.toNat then true
      else if y.toNat < x.toNat then false
      else strLtGo xs ys

/-- Lexicographic strict order on strings by code point (Python `<`). -/
def strLt (a b : String) : Bool :=
  strLtGo a.toList b.toList

/-- Lexicographic order on strings by code point (Python `<=`). -/
def strLe (a b : String) : Bool :=
  strLt a b || a == b

/-- A YAML scalar/container value as produced by `yaml.safe_load`. -/
inductive Val where
  | vnull
  | vbool (b : Bool)
  | vint (n : Int)
  | vstr (s : String)
  | vlist (l : List Val)
  | vmap (m : List (String × Val))
  deriving Repr, BEq, Inhabited

/-- Python truthiness (`bool(x)`) for the modelled value shapes. -/
def truthy : Val → Bool
  | .vnull => false
  | .vbool b => b
  | .vint n => n != 0
  | .vstr s => s != ""
  | .vlist l => !l.isEmpty
  | .vmap m => !m.isEmpty

/-- Python `str(x)` for the modelled value shapes.  Container reprs are
abbreviated to their surrounding bracket; see the module docstring. -/
def pyStr : Val → String
  | .vnull => "None"
  | .vbool true => "True"
  | .vbool false => "False"
  | .vint n => toString n
  | .vstr s => s
  | .vlist _ => "[...]"
  | .vmap _ => "\x7b...\x7d"

/-- Python `int(x)`: identity on integers, 0/1 on booleans, string parse
(which raises on failure), `TypeError` on other shapes. -/
def pyInt : Val → Except String Int
  | .vint n => .ok n
  | .vbool b => .ok (if b then 1 else 0)
  | .vstr s =>
      match pyToInt? s with
      | some n => .ok n
      | none => .error "invalid literal for int() with base 10"
  | _ => .error "int() argument must be a string or a number"

/-- Python `dict.get(k)`: `none` both when the key is absent and when it is bound
to YAML `null` (both give Python `None`). -/
def getVal (m : List (String × Val)) (k : String) : Option Val :=
  match m.lookup k with
  | some .vnull => none
  | v => v

/-- The script's `_as_bool(value, default)`. -/
def as_bool (v : Option Val) (default : Bool) : Bool :=
  match v with
  | none => default
  | some .vnull => default
  | some (.vbool b) => b
  | some (.vint n) => n != 0
  | some (.vstr s) => ["1", "true", "yes", "on"].contains (pyLower (pyStrip s))
  | some _ => default

/-- The script's `_is_fqdn(name)`: strip one leading `"*."`, then the rest must be
non-empty, drawn from `[a-zA-Z0-9.-]`, and contain a dot. -/
def is_fqdn (name : String) : Bool :=
  let n := if strStartsWith name "*." then name.drop 2 else name
  !n.toList.isEmpty && n.toList.all (fun c => c.isAlphanum || c == '.' || c == '-')
    && n.toList.contains '.'

/-- A desired DNS record (dataclass `DesiredRecord`). -/
structure DesiredRecord where
  zone_name : String
  type : String
  name : String
  content : String
  ttl : Int
  proxied : Bool
  deriving Repr, DecidableEq, Inhabited

/-- The identity triple used for de-duplication and provider addressing. -/
def DesiredRecord.key (r : DesiredRecord) : String × String × String :=
  (r.zone_name, r.type, r.name)

/-- The script's `_pick_zone_for_fqdn(fqdn, zone_names)`: keep the zones the name equals
or ends with `"." + zone`, and take the longest (Python `max` with `key=len`
keeps the first maximum, modelled by replacing only on strictly greater
length). -/
def pick_zone_for_fqdn (fqdn : String) (zone_names : List String) : Option String :=
  let cand := zone_names.filter (fun z => fqdn == z || strEndsWith fqdn ("." ++ z))
  match cand with
  | [] => none
  | m :: ms => some (ms.foldl (fun best z => if z.length > best.length then z else best) m)

/-! ## Public-IP detection (`_detect_public_ip`) -/

/-- An address successfully parsed by `ipaddress.ip_address`: its version,
its global-scope flag, and its normalised text `str(ip)`. -/
structure ProbeIp where
  version : Nat
  isGlobal : Bool
  text : String
  deriving Repr, DecidableEq

/-- Outcome of one probe endpoint: either an exception (transport error or
parse failure of the response body) or a parsed address. -/
inductive ProbeResult where
  | fail (e : String)
  | parsed (ip : ProbeIp)
  deriving Repr, DecidableEq

/-- Does a probe outcome satisfy the return condition for the requested
version (parsed, right version, global scope)? -/
def probeQualifies (version : Nat) : ProbeResult → Bool
  | .fail _ => false
  | .parsed ip => ip.version == version && ip.isGlobal

/-- The `last_err` accumulator: the most recent exception among the
processed probe outcomes (wrong-version / non-global parses leave it
unchanged, exactly as in the script). -/
def lastErrAfter (rs : List ProbeResult) (acc : Option String) : Option String :=
  match rs with
  | [] => acc
  | .fail e :: rest => lastErrAfter rest (some e)
  | .parsed _ :: rest => lastErrAfter rest acc

/-- The script's `_detect_public_ip(version)` over an explicit list of probe outcomes
(one per candidate endpoint, in order).  Returns the normalised text of the
first qualifying address; on exhaustion fails carrying the most recent
exception. -/
def detect_public_ip (version : Nat) (rs : List ProbeResult) (lastErr : Option String) :
    Except (Option String) String :=
  match rs with
  | [] => .error lastErr
  | .fail e :: rest => detect_public_ip version rest (some e)
  | .parsed ip :: rest =>
      if ip.version ≠ version then detect_public_ip version rest lastErr
      else if ip.isGlobal then .ok ip.text
      else detect_public_ip version rest lastErr

/-! ## Desired-state builder (`build_desired_records`)

The live detection call is abstracted as a parameter
`detect : Nat → Except String String` (the script's `_detect_public_ip`,
whose observable behaviour is a returned address or a raised error). -/

/-- The script's `_require_str(obj, key_path)`. -/
def require_str (v : Val) (keyPath : String) : Except String String :=
  match v with
  | .vstr s =>
      if pyStrip s == "" then .error ("Expected non-empty string at " ++ keyPath)
      else .ok (pyStrip s)
  | _ => .error ("Expected non-empty string at " ++ keyPath)

/-- Resolution of `origin_ipv4`: missing/null or the marker `"auto"`
triggers detection, anything else must be a non-empty string. -/
def resolveOrigin4 (detect : Nat → Except String String) (dns_cfg : List (String × Val)) :
    Except String String :=
  match getVal dns_cfg "origin_ipv4" with
  | none => detect 4
  | some v =>
      if pyLower (pyStrip (pyStr v)) == "auto" then detect 4
      else require_str v "cloudflare.dns.origin_ipv4"

/-- Resolution of `origin_ipv6`: missing/null means no IPv6 records,
`"auto"` triggers detection, anything else is `str(value or "").strip()`. -/
def resolveOrigin6 (detect : Nat → Except String String) (dns_cfg : List (String × Val)) :
    Except String String :=
  match getVal dns_cfg "origin_ipv6" with
  | none => .ok ""
  | some v =>
      if pyLower (pyStrip (pyStr v)) == "auto" then detect 6
      else .ok (pyStrip (pyStr (if truthy v then v else .vstr "")))

/-- The ttl computation `int(dns_cfg.get("ttl") or 1)`. -/
def resolveTtl (dns_cfg : List (String × Val)) : Except String Int :=
  match getVal dns_cfg "ttl" with
  | none => .ok 1
  | some v => pyInt (if truthy v then v else .vint 1)

/-- The FQDN collection loop of `build_desired_records`: over every site
entry that is a mapping with a `tls_domains` list, keep
`str(d).strip()` for the entries that are non-empty and FQDN-shaped. -/
def collectFqdns (sites : List Val) : List String :=
  sites.foldl
    (fun acc s =>
      match s with
      | .vmap m =>
          match m.lookup "tls_domains" with
          | some (.vlist tls) =>
              acc ++ (tls.map (fun d => pyStrip (pyStr d))).filter
                (fun ds => ds != "" && is_fqdn ds)
          | _ => acc
      | _ => acc)
    []

/-- Lexicographic string-insertion into a sorted list (used to model
Python's `sorted` on the set of collected names). -/
def insertSortedStr (x : String) : List String → List String
  | [] => [x]
  | y :: ys => if strLe x y then x :: y :: ys else y :: insertSortedStr x ys

/-- Duplicate removal (the collected names form a Python `set`; only
membership matters because the result is sorted next). -/
def dedupStr : List String → List String
  | [] => []
  | x :: xs => if x ∈ xs then dedupStr xs else x :: dedupStr xs

/-- Model of `sorted(fqdn_set)`: drop duplicates, sort lexicographically. -/
def sortedFqdns (sites : List Val) : List String :=
  (dedupStr (collectFqdns sites)).foldr insertSortedStr []

/-- The record emission loop at the end of `build_desired_records`: one `A`
record per sorted name, plus an `AAAA` record when an IPv6 origin was
resolved (non-empty). -/
def emitRecords (origin_ipv4 origin_ipv6 : String) (ttl : Int) (proxy_enabled : Bool)
    (fqdns : List String) : List DesiredRecord :=
  fqdns.flatMap (fun fqdn =>
    ⟨"", "A", fqdn, origin_ipv4, ttl, proxy_enabled⟩ ::
    (if origin_ipv6 ≠ "" then
      [⟨"", "AAAA", fqdn, origin_ipv6, ttl, proxy_enabled⟩]
    else []))

/-- The site-list extraction of `build_desired_records`: `edge` must be a
mapping holding a non-empty `sites` list. -/
def extractSites (cfg : List (String × Val)) : Except String (List Val) :=
  match cfg.lookup "edge" with
  | some (.vmap edge) =>
      match edge.lookup "sites" with
      | some (.vlist l) =>
          if l.isEmpty then .error "edge.sites must be a non-empty list"
          else .ok l
      | _ => .error "edge.sites must be a non-empty list"
  | _ => .error "edge must be a mapping"

/-- The enabled phase of `build_desired_records`, after the `cloudflare`
and `cloudflare.dns` mappings have been extracted and `enabled` is truthy. -/
def buildEnabled (detect : Nat → Except String String)
    (cfg cf dns_cfg : List (String × Val)) : Except String (List DesiredRecord) :=
  match resolveOrigin4 detect dns_cfg with
  | .error e => .error e
  | .ok origin_ipv4 =>
      match resolveOrigin6 detect dns_cfg with
      | .error e => .error e
      | .ok origin_ipv6 =>
          match resolveTtl dns_cfg with
          | .error e => .error e
          | .ok ttl =>
              match extractSites cfg with
              | .error e => .error e
              | .ok sites =>
                  .ok (emitRecords origin_ipv4 origin_ipv6 ttl
                    (as_bool (getVal cf "proxy_enabled") true) (sortedFqdns sites))

/-- The script's `build_desired_records(cfg)`. -/
def build_desired_records (detect : Nat → Except String String)
    (cfg : List (String × Val)) : Except String (List DesiredRecord) :=
  match cfg.lookup "cloudflare" with
  | some (.vmap cf) =>
      match cf.lookup "dns" with
      | none => .ok []
      | some .vnull => .ok []
      | some (.vmap dns_cfg) =>
          if !as_bool (getVal dns_cfg "enabled") false then .ok []
          else buildEnabled detect cfg cf dns_cfg
      | some _ => .error "cloudflare.dns must be a mapping"
  | _ => .error "cloudflare must be a mapping"

/-! ## Provider model and the reconciliation loop of `main` -/

/-- A live record as returned by `find_dns_record` (the fields `main`
reads: `id`, `content`, `ttl`, `proxied`). -/
structure LiveRecord where
  id : String
  content : String
  ttl : Int
  proxied : Bool
  deriving Repr, DecidableEq

/-- The record identity (zone name, type, name). -/
abbrev RecordKey := String × String × String

/-- The provider's record store, observed through `find_dns_record` and
mutated by `create_dns_record` / `update_dns_record`. -/
abbrev Provider := RecordKey → Option LiveRecord

/-- Point update of the provider store. -/
def providerInsert (st : Provider) (k : RecordKey) (l : LiveRecord) : Provider :=
  fun k' => if k' = k then some l else st k'

/-- The `needs_update` comparison of `main`: string-compared content,
integer-compared ttl, boolean-compared proxied. -/
def needsUpdate (existing : LiveRecord) (r : DesiredRecord) : Bool :=
  existing.content != r.content || existing.ttl != r.ttl || existing.proxied != r.proxied

/-- What the per-record loop of `main` did for one record. -/
inductive Action where
  | create (r : DesiredRecord)
  | update (id : String) (r : DesiredRecord)
  | noChange (r : DesiredRecord)
  | planCreate (r : DesiredRecord)
  | planUpdate (r : DesiredRecord)
  deriving Repr, DecidableEq

/-- Did this step issue a mutating provider call
(`create_dns_record` or `update_dns_record`)? -/
def Action.isMutating : Action → Bool
  | .create _ => true
  | .update _ _ => true
  | _ => false

/-- One iteration of the reconciliation loop of `main` for record `r`:
look up the existing record; in plan mode only report; in apply mode
create, update (requiring a non-empty id) or leave unchanged.  `fid` is
the id the provider assigns to a newly created record. -/
def reconcileStep (applyMode : Bool) (fid : String) (st : Provider) (r : DesiredRecord) :
    Except String (Action × Provider) :=
  match st r.key with
  | none =>
      if applyMode then
        .ok (.create r, providerInsert st r.key ⟨fid, r.content, r.ttl, r.proxied⟩)
      else
        .ok (.planCreate r, st)
  | some existing =>
      if !applyMode then .ok (.planUpdate r, st)
      else if needsUpdate existing r then
        if existing.id == "" then
          .error "Existing record has no id"
        else
          .ok (.update existing.id r,
               providerInsert st r.key ⟨existing.id, r.content, r.ttl, r.proxied⟩)
      else
        .ok (.noChange r, st)

/-- The whole reconciliation loop of `main` over a record list, threading
the provider store and accumulating the per-record actions. -/
def reconcileRun (applyMode : Bool) (fid : String) :
    Provider → List DesiredRecord → Except String (List Action × Provider)
  | st, [] => .ok ([], st)
  | st, r :: rs =>
      match reconcileStep applyMode fid st r with
      | .error e => .error e
      | .ok (a, st') =>
          match reconcileRun applyMode fid st' rs with
          | .error e => .error e
          | .ok (as, st'') => .ok (a :: as, st'')

/-! ## De-duplication and zone filling of `main` -/

/-- One `uniq[(zone, type, name)] = r` assignment on the insertion-ordered
dict modelled as a list: replace the binding if the key is present
(keeping its position), else append. -/
def upsert (acc : List DesiredRecord) (r : DesiredRecord) : List DesiredRecord :=
  if acc.any (fun x => x.key = r.key) then
    acc.map (fun x => if x.key = r.key then r else x)
  else
    acc ++ [r]

/-- Worker of `dedupe`. -/
def dedupeGo : List DesiredRecord → List DesiredRecord → List DesiredRecord
  | acc, [] => acc
  | acc, r :: rs => dedupeGo (upsert acc r) rs

/-- The de-duplication of `main`: fill an insertion-ordered dict keyed by
`(zone_name, type, name)` (last writer wins) and take its values. -/
def dedupe (rs : List DesiredRecord) : List DesiredRecord :=
  dedupeGo [] rs

/-- Python `"*.".lstrip` semantics: `str.lstrip(chars)` removes every
leading character drawn from the set, here `{'*', '.'}`. -/
def lstripStarDot (s : String) : String :=
  String.mk (s.toList.dropWhile (fun c => c == '*' || c == '.'))

/-- The zone-filling loop of `main`: resolve each record's name (with the
wildcard prefix stripped) to a zone, aborting on the first name that
matches no managed zone. -/
def fillZones (zone_names : List String) : List DesiredRecord → Except String (List DesiredRecord)
  | [] => .ok []
  | r :: rs =>
      match pick_zone_for_fqdn (lstripStarDot r.name) zone_names with
      | none => .error ("No Cloudflare zone found for record name: " ++ r.name)
      | some z =>
          match fillZones zone_names rs with
          | .error e => .error e
          | .ok rest => .ok ({ r with zone_name := z } :: rest)

/-- Lexicographic order on record keys, matching the sort key
`(zone_name, type, name)` of `main`. -/
def keyLe (a b : RecordKey) : Bool :=
  strLt a.1 b.1 ||
    (a.1 == b.1 && (strLt a.2.1 b.2.1 || (a.2.1 == b.2.1 && strLe a.2.2 b.2.2)))

/-- Insertion into a key-sorted record list. -/
def insertByKey (r : DesiredRecord) : List DesiredRecord → List DesiredRecord
  | [] => [r]
  | x :: xs => if keyLe x.key r.key then x :: insertByKey r xs else r :: x :: xs

/-- Model of `sorted(records, key=lambda x: (x.zone_name, x.type, x.name))`. -/
def sortByKey (rs : List DesiredRecord) : List DesiredRecord :=
  rs.foldl (fun acc r => insertByKey r acc) []

/-! ## Token resolution and the `main` pipeline -/

/-- The token-variable-name computation `str(cf.get("dns_api_token_env") or "CF_DNS_API_TOKEN").strip() or
"CF_DNS_API_TOKEN"`. -/
def token_env_name (cf : List (String × Val)) : String :=
  let raw := match cf.lookup "dns_api_token_env" with
    | some v => if truthy v then pyStr v else "CF_DNS_API_TOKEN"
    | none => "CF_DNS_API_TOKEN"
  if pyStrip raw == "" then "CF_DNS_API_TOKEN" else pyStrip raw

/-- The token lookup chain `os.environ.get(token_env_name) or secrets.get(token_env_name) or
secrets.get("CF_DNS_API_TOKEN")`: the first non-empty value among the
three lookups, where a missing key and an empty value are both falsy. -/
def resolve_token (tokenEnvName : String) (env secrets : String → Option String) :
    Option String :=
  let a := (env tokenEnvName).getD ""
  let b := (secrets tokenEnvName).getD ""
  let c := (secrets "CF_DNS_API_TOKEN").getD ""
  if a ≠ "" then some a else if b ≠ "" then some b else if c ≠ "" then some c else none

/-- A zone as kept by `main` after filtering the provider's zone list
(name and opaque id, both strings). -/
structure ZoneInfo where
  name : String
  id : String
  deriving Repr, DecidableEq

/-- The `main` pipeline after CLI parsing, with every external effect an
explicit parameter: build the desired records (empty list short-circuits
to a successful no-op), resolve the API token, fill zones, de-duplicate,
sort, then reconcile.  The returned `Int` is the process exit code. -/
def mainRun (applyMode : Bool) (fid : String) (detect : Nat → Except String String)
    (cfg : List (String × Val)) (env secrets : String → Option String)
    (zones : List ZoneInfo) (st : Provider) :
    Except String (List Action × Provider × Int) :=
  match build_desired_records detect cfg with
  | .error e => .error e
  | .ok desired =>
      if desired.isEmpty then .ok ([], st, 0)
      else
        match cfg.lookup "cloudflare" with
        | some (.vmap cf) =>
            let tname := token_env_name cf
            match resolve_token tname env secrets with
            | none => .error ("Missing Cloudflare API token. Put " ++ tname ++
                "=... into the secrets file (or export it).")
            | some _ =>
                match fillZones (zones.map ZoneInfo.name) desired with
                | .error e => .error e
                | .ok filled =>
                    match reconcileRun applyMode fid st (sortByKey (dedupe filled)) with
                    | .error e => .error e
                    | .ok (acts, st') => .ok (acts, st', 0)
        | _ => .error "cloudflare must be a mapping"

/-! ## Reconciler lemmas -/

/-- The apply step on an absent record is a create. -/
theorem reconcileStep_true_none (fid : String) (st : Provider) (r : DesiredRecord)
    (hf : st r.key = none) :
    reconcileStep true fid st r =
      .ok (.create r, providerInsert st r.key ⟨fid, r.content, r.ttl, r.proxied⟩) := by
  unfold reconcileStep
  rw [hf]
  rfl

/-- The apply step on a present record diffs, then updates or leaves be. -/
theorem reconcileStep_true_some (fid : String) (st : Provider) (r : DesiredRecord)
    (l : LiveRecord) (hf : st r.key = some l) :
    reconcileStep true fid st r =
      (if needsUpdate l r then
        (if l.id == "" then .error "Existing record has no id"
         else .ok (.update l.id r, providerInsert st r.key ⟨l.id, r.content, r.ttl, r.proxied⟩))
      else .ok (.noChange r, st)) := by
  unfold reconcileStep
  rw [hf]
  rfl

/-- The plan step reports and never mutates. -/
theorem reconcileStep_false (fid : String) (st : Provider) (r : DesiredRecord) :
    reconcileStep false fid st r =
      .ok ((match st r.key with
            | none => Action.planCreate r
            | some _ => Action.planUpdate r), st) := by
  unfold reconcileStep
  cases st r.key <;> rfl

/-- The run aborts when a step fails. -/
theorem reconcileRun_cons_err (a : Bool) (fid : String) (st : Provider)
    (r : DesiredRecord) (rs : List DesiredRecord) (e : String)
    (hs : reconcileStep a fid st r = .error e) :
    reconcileRun a fid st (r :: rs) = .error e := by
  unfold reconcileRun
  rw [hs]

/-- The run aborts when the remainder of the loop fails. -/
theorem reconcileRun_cons_ok_err (a : Bool) (fid : String) (st st1 : Provider)
    (r : DesiredRecord) (rs : List DesiredRecord) (x : Action) (e : String)
    (hs : reconcileStep a fid st r = .ok (x, st1))
    (hr : reconcileRun a fid st1 rs = .error e) :
    reconcileRun a fid st (r :: rs) = .error e := by
  unfold reconcileRun
  rw [hs]
  show (match reconcileRun a fid st1 rs with
        | .error e => (.error e : Except String (List Action × Provider))
        | .ok (as, st'') => .ok (x :: as, st'')) = .error e
  rw [hr]

/-- The run prepends a successful step's action to the rest of the run. -/
theorem reconcileRun_cons_ok_ok (a : Bool) (fid : String) (st st1 st2 : Provider)
    (r : DesiredRecord) (rs : List DesiredRecord) (x : Action) (as : List Action)
    (hs : reconcileStep a fid st r = .ok (x, st1))
    (hr : reconcileRun a fid st1 rs = .ok (as, st2)) :
    reconcileRun a fid st (r :: rs) = .ok (x :: as, st2) := by
  unfold reconcileRun
  rw [hs]
  show (match reconcileRun a fid st1 rs with
        | .error e => (.error e : Except String (List Action × Provider))
        | .ok (as, st'') => .ok (x :: as, st'')) = _
  rw [hr]

/-- Inversion of a successful run on a cons cell. -/
theorem reconcileRun_cons_inv (a : Bool) (fid : String) (st st' : Provider)
    (r : DesiredRecord) (rs : List DesiredRecord) (acts : List Action)
    (h : reconcileRun a fid st (r :: rs) = .ok (acts, st')) :
    ∃ x st1 as, reconcileStep a fid st r = .ok (x, st1) ∧
      reconcileRun a fid st1 rs = .ok (as, st') ∧ acts = x :: as := by
  cases hs : reconcileStep a fid st r with
  | error e =>
      rw [reconcileRun_cons_err a fid st r rs e hs] at h
      exact absurd h (by simp)
  | ok p =>
      obtain ⟨x, st1⟩ := p
      cases hr : reconcileRun a fid st1 rs with
      | error e =>
          rw [reconcileRun_cons_ok_err a fid st st1 r rs x e hs hr] at h
          exact absurd h (by simp)
      | ok q =>
          obtain ⟨as, st2⟩ := q
          rw [reconcileRun_cons_ok_ok a fid st st1 st2 r rs x as hs hr] at h
          obtain ⟨h1, h2⟩ := Prod.mk.injEq .. ▸ (Except.ok.inj h)
          refine ⟨x, st1, as, ?_, ?_, h1.symm⟩
          · rfl
          · rw [← h2]
            exact hr

/-- The live record at `r`'s key agrees with `r` on the three compared
fields. -/
def agrees (st : Provider) (r : DesiredRecord) : Prop :=
  ∃ l, st r.key = some l ∧ l.content = r.content ∧ l.ttl = r.ttl ∧ l.proxied = r.proxied

theorem providerInsert_self (st : Provider) (k : RecordKey) (l : LiveRecord) :
    providerInsert st k l k = some l := by
  simp [providerInsert]

theorem providerInsert_other (st : Provider) (k k' : RecordKey) (l : LiveRecord)
    (h : k' ≠ k) : providerInsert st k l k' = st k' := by
  simp [providerInsert, h]

/-- Predicate `needsUpdate` is false exactly when the three compared fields agree. -/
theorem needsUpdate_eq_false_iff (l : LiveRecord) (r : DesiredRecord) :
    needsUpdate l r = false ↔
      l.content = r.content ∧ l.ttl = r.ttl ∧ l.proxied = r.proxied := by
  simp [needsUpdate, not_or, and_assoc]

/-- After a successful apply step for `r`, the provider agrees with `r`. -/
theorem reconcileStep_agrees (fid : String) (st st' : Provider) (r : DesiredRecord)
    (a : Action) (h : reconcileStep true fid st r = .ok (a, st')) : agrees st' r := by
  cases hf : st r.key with
  | none =>
      rw [reconcileStep_true_none fid st r hf] at h
      obtain ⟨-, h2⟩ := Prod.mk.injEq .. ▸ (Except.ok.inj h)
      exact ⟨_, by rw [← h2]; exact providerInsert_self st r.key _, rfl, rfl, rfl⟩
  | some l =>
      rw [reconcileStep_true_some fid st r l hf] at h
      by_cases hu : needsUpdate l r
      · rw [if_pos hu] at h
        by_cases hid : l.id == ""
        · rw [if_pos hid] at h; exact absurd h (by simp)
        · rw [if_neg hid] at h
          obtain ⟨-, h2⟩ := Prod.mk.injEq .. ▸ (Except.ok.inj h)
          exact ⟨_, by rw [← h2]; exact providerInsert_self st r.key _, rfl, rfl, rfl⟩
      · rw [if_neg hu] at h
        obtain ⟨-, h2⟩ := Prod.mk.injEq .. ▸ (Except.ok.inj h)
        obtain ⟨h3, h4, h5⟩ := (needsUpdate_eq_false_iff l r).mp (by simpa using hu)
        exact ⟨l, by rw [← h2, hf], h3, h4, h5⟩

/-- A successful apply step only touches the processed record's key. -/
theorem reconcileStep_preserves (fid : String) (st st' : Provider) (r : DesiredRecord)
    (a : Action) (h : reconcileStep true fid st r = .ok (a, st'))
    (k : RecordKey) (hk : k ≠ r.key) : st' k = st k := by
  cases hf : st r.key with
  | none =>
      rw [reconcileStep_true_none fid st r hf] at h
      obtain ⟨-, h2⟩ := Prod.mk.injEq .. ▸ (Except.ok.inj h)
      rw [← h2]; exact providerInsert_other st r.key k _ hk
  | some l =>
      rw [reconcileStep_true_some fid st r l hf] at h
      by_cases hu : needsUpdate l r
      · rw [if_pos hu] at h
        by_cases hid : l.id == ""
        · rw [if_pos hid] at h; exact absurd h (by simp)
        · rw [if_neg hid] at h
          obtain ⟨-, h2⟩ := Prod.mk.injEq .. ▸ (Except.ok.inj h)
          rw [← h2]; exact providerInsert_other st r.key k _ hk
      · rw [if_neg hu] at h
        obtain ⟨-, h2⟩ := Prod.mk.injEq .. ▸ (Except.ok.inj h)
        rw [← h2]

/-- A successful apply run only touches the processed records' keys. -/
theorem reconcileRun_preserves (fid : String) (rs : List DesiredRecord) :
    ∀ (st st' : Provider) (acts : List Action),
      reconcileRun true fid st rs = .ok (acts, st') →
      ∀ k, (∀ r ∈ rs, k ≠ r.key) → st' k = st k := by
  induction rs with
  | nil => intro st st' acts h k _; cases h; rfl
  | cons r rs ih =>
      intro st st' acts h k hk
      obtain ⟨x, st1, as, hs, hr, -⟩ := reconcileRun_cons_inv true fid st st' r rs acts h
      rw [ih st1 st' as hr k (fun r' hr' => hk r' (List.mem_cons_of_mem _ hr'))]
      exact reconcileStep_preserves fid st st1 r x hs k (hk r (List.mem_cons_self r rs))

/-- After a successful apply run over records with pairwise-distinct keys,
the provider agrees with every processed record. -/
theorem reconcileRun_agrees (fid : String) (rs : List DesiredRecord) :
    ∀ (st st' : Provider) (acts : List Action),
      (rs.map DesiredRecord.key).Nodup →
      reconcileRun true fid st rs = .ok (acts, st') →
      ∀ r ∈ rs, agrees st' r := by
  induction rs with
  | nil => intro st st' acts _ _ r hr; exact absurd hr (List.not_mem_nil r)
  | cons r0 rs ih =>
      intro st st' acts hnd h r hr
      obtain ⟨x, st1, as, hs, hrun, -⟩ := reconcileRun_cons_inv true fid st st' r0 rs acts h
      rcases List.mem_cons.mp hr with hr0 | hrs
      · subst hr0
        obtain ⟨l, hl, ha, hb, hc⟩ := reconcileStep_agrees fid st st1 r x hs
        refine ⟨l, ?_, ha, hb, hc⟩
        rw [reconcileRun_preserves fid rs st1 st' as hrun r.key ?_, hl]
        intro r' hr'
        simp only [List.map_cons, List.nodup_cons, List.mem_map] at hnd
        exact fun hkey => hnd.1 ⟨r', hr', hkey.symm⟩
      · exact ih st1 st' as ((List.nodup_cons.mp (by simpa using hnd)).2) hrun r hrs

/-- If the provider already agrees with every record, the apply run decides
NO_CHANGE everywhere and leaves the provider untouched. -/
theorem reconcileRun_all_agree (fid : String) (rs : List DesiredRecord) (st : Provider)
    (h : ∀ r ∈ rs, agrees st r) :
    reconcileRun true fid st rs = .ok (rs.map Action.noChange, st) := by
  induction rs with
  | nil => rfl
  | cons r rs ih =>
      obtain ⟨l, hl, h1, h2, h3⟩ := h r (List.mem_cons_self r rs)
      have hnu : needsUpdate l r = false :=
        (needsUpdate_eq_false_iff l r).mpr ⟨h1, h2, h3⟩
      have hstep : reconcileStep true fid st r = .ok (.noChange r, st) := by
        rw [reconcileStep_true_some fid st r l hl, hnu]
        rfl
      exact reconcileRun_cons_ok_ok true fid st st st r rs (.noChange r)
        (rs.map Action.noChange) hstep
        (ih (fun r' hr' => h r' (List.mem_cons_of_mem _ hr')))

/-! ## De-duplication lemmas (insertion-ordered dict, last writer wins) -/

theorem replace_key_eq (r x : DesiredRecord) :
    (if x.key = r.key then r else x).key = x.key := by
  by_cases h : x.key = r.key
  · simp [h]
  · simp [h]

theorem upsert_keys (acc : List DesiredRecord) (r : DesiredRecord) :
    (upsert acc r).map DesiredRecord.key =
      (if acc.any (fun x => x.key = r.key) then acc.map DesiredRecord.key
       else acc.map DesiredRecord.key ++ [r.key]) := by
  unfold upsert
  by_cases h : acc.any (fun x => decide (x.key = r.key)) = true
  · rw [if_pos h, if_pos h, List.map_map]
    exact List.map_congr_left (fun x _ => replace_key_eq r x)
  · rw [if_neg h, if_neg h, List.map_append]
    rfl

theorem upsert_keys_nodup (acc : List DesiredRecord) (r : DesiredRecord)
    (h : (acc.map DesiredRecord.key).Nodup) :
    ((upsert acc r).map DesiredRecord.key).Nodup := by
  rw [upsert_keys]
  by_cases ha : acc.any (fun x => decide (x.key = r.key)) = true
  · rw [if_pos ha]; exact h
  · rw [if_neg ha, List.nodup_append]
    refine ⟨h, List.nodup_singleton _, ?_⟩
    intro k hk hk'
    obtain ⟨x, hx, hxk⟩ := List.mem_map.mp hk
    rcases List.mem_singleton.mp hk' with rfl
    exact ha (List.any_eq_true.mpr ⟨x, hx, decide_eq_true hxk⟩)

theorem replace_eq_self (acc : List DesiredRecord) (r : DesiredRecord)
    (h : ∀ x ∈ acc, ¬(x.key = r.key)) :
    acc.map (fun x => if x.key = r.key then r else x) = acc := by
  rw [show acc.map (fun x => if x.key = r.key then r else x) = acc.map id from
    List.map_congr_left (fun x hx => by rw [if_neg (h x hx)]; rfl)]
  exact List.map_id acc

theorem filter_key_absent (acc : List DesiredRecord) (k : RecordKey)
    (h : ∀ x ∈ acc, ¬(x.key = k)) :
    acc.filter (fun x => x.key = k) = [] :=
  List.filter_eq_nil_iff.mpr (fun x hx => by simpa using h x hx)

theorem nodup_no_tail_key (y : DesiredRecord) (ys : List DesiredRecord)
    (hnd : ((y :: ys).map DesiredRecord.key).Nodup) :
    ∀ x ∈ ys, ¬(x.key = y.key) := by
  intro x hx hxk
  simp only [List.map_cons, List.nodup_cons, List.mem_map] at hnd
  exact hnd.1 ⟨x, hx, hxk⟩

theorem filter_replace_present (r : DesiredRecord) :
    ∀ acc : List DesiredRecord, (acc.map DesiredRecord.key).Nodup →
    (∃ x ∈ acc, x.key = r.key) →
    (acc.map (fun x => if x.key = r.key then r else x)).filter
      (fun x => x.key = r.key) = [r] := by
  intro acc
  induction acc with
  | nil => intro _ h; simp at h
  | cons y ys ih =>
      intro hnd hex
      by_cases hy : y.key = r.key
      · have hys : ∀ x ∈ ys, ¬(x.key = r.key) := fun x hx hxk =>
          nodup_no_tail_key y ys hnd x hx (hxk.trans hy.symm)
        simp only [List.map_cons, if_pos hy]
        rw [replace_eq_self ys r hys,
          List.filter_cons_of_pos (by simp),
          filter_key_absent ys r.key hys]
      · rcases hex with ⟨x, hx, hxk⟩
        rcases List.mem_cons.mp hx with rfl | hx'
        · exact absurd hxk hy
        · simp only [List.map_cons, if_neg hy]
          rw [List.filter_cons_of_neg (by simpa using hy)]
          exact ih ((List.nodup_cons.mp (by simpa using hnd)).2) ⟨x, hx', hxk⟩

theorem filter_replace_other (acc : List DesiredRecord) (r : DesiredRecord)
    (k : RecordKey) (hk : ¬(k = r.key)) :
    (acc.map (fun x => if x.key = r.key then r else x)).filter
      (fun x => x.key = k) = acc.filter (fun x => x.key = k) := by
  induction acc with
  | nil => rfl
  | cons y ys ih =>
      simp only [List.map_cons]
      by_cases hy : y.key = r.key
      · rw [if_pos hy,
          List.filter_cons_of_neg (by simp; exact fun h => hk h.symm),
          List.filter_cons_of_neg (by simp; exact fun h => hk (h.symm.trans hy)), ih]
      · rw [if_neg hy]
        by_cases hyk : y.key = k
        · rw [List.filter_cons_of_pos (by simpa using hyk),
            List.filter_cons_of_pos (by simpa using hyk), ih]
        · rw [List.filter_cons_of_neg (by simpa using hyk),
            List.filter_cons_of_neg (by simpa using hyk), ih]

theorem upsert_filter (acc : List DesiredRecord) (r : DesiredRecord) (k : RecordKey)
    (hnd : (acc.map DesiredRecord.key).Nodup) :
    (upsert acc r).filter (fun x => x.key = k) =
      (if k = r.key then [r] else acc.filter (fun x => x.key = k)) := by
  unfold upsert
  by_cases ha : acc.any (fun x => decide (x.key = r.key)) = true
  · rw [if_pos ha]
    obtain ⟨x, hx, hxk⟩ := List.any_eq_true.mp ha
    by_cases hk : k = r.key
    · rw [if_pos hk]
      subst hk
      exact filter_replace_present r acc hnd ⟨x, hx, of_decide_eq_true hxk⟩
    · rw [if_neg hk]
      exact filter_replace_other acc r k hk
  · rw [if_neg ha, List.filter_append]
    have habs : ∀ x ∈ acc, ¬(x.key = r.key) := by
      intro x hx hxk
      exact ha (List.any_eq_true.mpr ⟨x, hx, decide_eq_true hxk⟩)
    by_cases hk : k = r.key
    · rw [if_pos hk]
      subst hk
      rw [filter_key_absent acc r.key habs,
        List.filter_cons_of_pos (by simp), List.nil_append]
      rfl
    · rw [if_neg hk,
        List.filter_cons_of_neg (by simp; exact fun h => hk h.symm)]
      simp

/-- A list of length at most one is recovered from its `getLast?`. -/
theorem short_list_getLast (l : List DesiredRecord) (h : l.length ≤ 1) :
    l.getLast?.toList = l := by
  match l with
  | [] => rfl
  | [a] => rfl
  | a :: b :: t => simp at h

/-- With pairwise-distinct keys, the filter at any key has at most one
element. -/
theorem filter_length_le_one (k : RecordKey) :
    ∀ acc : List DesiredRecord, (acc.map DesiredRecord.key).Nodup →
      (acc.filter (fun x => x.key = k)).length ≤ 1 := by
  intro acc
  induction acc with
  | nil => intro _; simp
  | cons y ys ih =>
      intro hnd
      by_cases hy : y.key = k
      · rw [List.filter_cons_of_pos (by simpa using hy)]
        have : ys.filter (fun x => x.key = k) = [] :=
          filter_key_absent ys k (fun x hx hxk =>
            nodup_no_tail_key y ys hnd x hx (hxk.trans hy.symm))
        rw [List.length_cons, this]
        simp
      · rw [List.filter_cons_of_neg (by simpa using hy)]
        exact ih ((List.nodup_cons.mp (by simpa using hnd)).2)

/-- Master invariant of the de-duplication loop: filtering the final dict
at any key yields exactly the last binding for that key in the combined
input. -/
theorem dedupeGo_filter (rs : List DesiredRecord) :
    ∀ acc : List DesiredRecord, (acc.map DesiredRecord.key).Nodup → ∀ k,
      (dedupeGo acc rs).filter (fun x => x.key = k) =
        (((acc ++ rs).filter (fun x => x.key = k)).getLast?).toList := by
  induction rs with
  | nil =>
      intro acc hnd k
      rw [List.append_nil]
      exact (short_list_getLast _ (filter_length_le_one k acc hnd)).symm
  | cons r rs ih =>
      intro acc hnd k
      show (dedupeGo (upsert acc r) rs).filter _ = _
      rw [ih (upsert acc r) (upsert_keys_nodup acc r hnd) k]
      rw [List.filter_append, List.filter_append, upsert_filter acc r k hnd]
      by_cases hk : k = r.key
      · rw [if_pos hk]
        subst hk
        rw [List.filter_cons_of_pos (by simp)]
        rw [List.getLast?_append_cons, List.singleton_append]
      · rw [if_neg hk,
          List.filter_cons_of_neg (by simp; exact fun h => hk h.symm)]

/-- The de-duplicated list has pairwise-distinct keys. -/
theorem dedupeGo_keys_nodup (rs : List DesiredRecord) :
    ∀ acc : List DesiredRecord, (acc.map DesiredRecord.key).Nodup →
      ((dedupeGo acc rs).map DesiredRecord.key).Nodup := by
  induction rs with
  | nil => intro acc hnd; exact hnd
  | cons r rs ih =>
      intro acc hnd
      exact ih (upsert acc r) (upsert_keys_nodup acc r hnd)

theorem dedupe_keys_nodup (rs : List DesiredRecord) :
    ((dedupe rs).map DesiredRecord.key).Nodup :=
  dedupeGo_keys_nodup rs [] (by simp)

/-- Membership in the de-duplicated list is exactly being the last record
with one's key. -/
theorem dedupe_mem_iff (rs : List DesiredRecord) (r : DesiredRecord) :
    r ∈ dedupe rs ↔ (rs.filter (fun x => x.key = r.key)).getLast? = some r := by
  have hfil : (dedupe rs).filter (fun x => x.key = r.key) =
      ((rs.filter (fun x => x.key = r.key)).getLast?).toList := by
    have h := dedupeGo_filter rs [] (by simp) r.key
    rw [List.nil_append] at h
    exact h
  constructor
  · intro hmem
    have : r ∈ (dedupe rs).filter (fun x => x.key = r.key) :=
      List.mem_filter.mpr ⟨hmem, by simp⟩
    rw [hfil] at this
    cases hl : (rs.filter (fun x => x.key = r.key)).getLast? with
    | none => rw [hl] at this; simp [Option.toList] at this
    | some y =>
        rw [hl] at this
        simp only [Option.toList, List.mem_singleton] at this
        rw [this]
  · intro hlast
    have : (dedupe rs).filter (fun x => x.key = r.key) = [r] := by
      rw [hfil, hlast]; rfl
    have hr : r ∈ (dedupe rs).filter (fun x => x.key = r.key) := by
      rw [this]; simp
    exact (List.mem_filter.mp hr).1

/-! ## Concrete fixtures for witnesses -/

/-- Detection stub for configurations whose origins are explicit, so
detection is never invoked. -/
def detectUnused : Nat → Except String String := fun _ => .error "detection not invoked"

def provEmpty : Provider := fun _ => none

def recW : DesiredRecord := ⟨"example.com", "A", "www.example.com", "1.2.3.4", 300, true⟩

def liveW : LiveRecord := ⟨"cf-old", "5.6.7.8", 300, true⟩

def provW : Provider := fun k => if k = recW.key then some liveW else none

def st1W : Provider :=
  providerInsert provEmpty recW.key ⟨"cf-new-id", recW.content, recW.ttl, recW.proxied⟩

/-- Predicate `needsUpdate` is true exactly when one of the compared fields differs. -/
theorem needsUpdate_eq_true_iff (l : LiveRecord) (r : DesiredRecord) :
    needsUpdate l r = true ↔
      (l.content ≠ r.content ∨ l.ttl ≠ r.ttl ∨ l.proxied ≠ r.proxied) := by
  simp [needsUpdate, or_assoc]

/-! ## Claim theorems: reconciler -/

/-- Claim C2: For every existing live record, the apply-mode reconciler
decides UPDATE exactly when at least one of content (string equality),
ttl (integer equality) or proxied (boolean equality) differs from the
desired record; when all three agree it decides NO_CHANGE and issues no
mutating call for that record (the provider state is untouched). -/
theorem update_iff_field_mismatch (fid : String) (st : Provider) (r : DesiredRecord)
    (l : LiveRecord) (hfind : st r.key = some l) (hid : ¬(l.id = "")) :
    reconcileStep true fid st r =
      (if l.content ≠ r.content ∨ l.ttl ≠ r.ttl ∨ l.proxied ≠ r.proxied then
        .ok (.update l.id r, providerInsert st r.key ⟨l.id, r.content, r.ttl, r.proxied⟩)
      else .ok (.noChange r, st)) := by
  rw [reconcileStep_true_some fid st r l hfind]
  by_cases hu : needsUpdate l r = true
  · rw [if_pos hu, if_neg (show ¬((l.id == "") = true) by simpa using hid),
      if_pos ((needsUpdate_eq_true_iff l r).mp hu)]
  · rw [if_neg hu, if_neg (fun hd => hu ((needsUpdate_eq_true_iff l r).mpr hd))]

theorem update_iff_field_mismatch_witness :
    reconcileStep true "cf-new-id" provW recW =
      .ok (.update "cf-old" recW,
        providerInsert provW recW.key ⟨"cf-old", recW.content, recW.ttl, recW.proxied⟩) := by
  have h := update_iff_field_mismatch "cf-new-id" provW recW liveW rfl (by decide)
  rw [h, if_pos (Or.inl (by decide))]
  rfl

/-- Claim C3: In dry-run (plan) mode, for every desired-record list and every
provider state, the loop succeeds issuing zero mutating provider calls (no
`create_dns_record`, no `update_dns_record`) and leaves the provider
untouched, regardless of the create/update target computed per record. -/
theorem dry_run_issues_no_mutations (fid : String) (st : Provider)
    (rs : List DesiredRecord) :
    ∃ acts, reconcileRun false fid st rs = .ok (acts, st) ∧
      ∀ a ∈ acts, a.isMutating = false := by
  induction rs with
  | nil => exact ⟨[], rfl, by simp⟩
  | cons r rs ih =>
      obtain ⟨acts, hrun, hmut⟩ := ih
      refine ⟨(match st r.key with
               | none => Action.planCreate r
               | some _ => Action.planUpdate r) :: acts, ?_, ?_⟩
      · exact reconcileRun_cons_ok_ok false fid st st st r rs _ acts
          (reconcileStep_false fid st r) hrun
      · intro a ha
        rcases List.mem_cons.mp ha with h | h
        · subst h; cases st r.key <;> rfl
        · exact hmut a h

theorem dry_run_issues_no_mutations_witness :
    ∃ acts, reconcileRun false "cf-new-id" provW [recW] = .ok (acts, provW) ∧
      ∀ a ∈ acts, a.isMutating = false :=
  dry_run_issues_no_mutations "cf-new-id" provW [recW]

/-- Claim C1: Reconciliation is idempotent: after a successful apply run over
a (de-duplicated) desired-record list, running the apply loop again against
the resulting provider state classifies every record as NO_CHANGE, issues
no create or update call, and leaves the provider unchanged. -/
theorem apply_twice_all_no_change (fid : String) (rs : List DesiredRecord)
    (st st1 : Provider) (acts : List Action)
    (h1 : reconcileRun true fid st (dedupe rs) = .ok (acts, st1)) :
    reconcileRun true fid st1 (dedupe rs) =
      .ok ((dedupe rs).map Action.noChange, st1) ∧
    ∀ a ∈ (dedupe rs).map Action.noChange, a.isMutating = false := by
  have hag := reconcileRun_agrees fid (dedupe rs) st st1 acts (dedupe_keys_nodup rs) h1
  refine ⟨reconcileRun_all_agree fid (dedupe rs) st1 hag, ?_⟩
  intro a ha
  obtain ⟨r, -, hr⟩ := List.mem_map.mp ha
  rw [← hr]
  rfl

theorem apply_twice_all_no_change_witness :
    reconcileRun true "cf-new-id" st1W (dedupe [recW]) =
      .ok ((dedupe [recW]).map Action.noChange, st1W) ∧
    ∀ a ∈ (dedupe [recW]).map Action.noChange, a.isMutating = false :=
  apply_twice_all_no_change "cf-new-id" [recW] provEmpty st1W [.create recW] rfl

/-! ## Claim theorems: de-duplication -/

def cfgTwoSites : List (String × Val) :=
  [("cloudflare", .vmap [("dns", .vmap
      [("enabled", .vbool true), ("origin_ipv4", .vstr "1.2.3.4")])]),
   ("edge", .vmap [("sites", .vlist
      [.vmap [("tls_domains", .vlist [.vstr "www.example.com"])],
       .vmap [("tls_domains", .vlist [.vstr "www.example.com"])]])])]

/-- Claim C9: Desired records are de-duplicated by the identity triple
(zone name, type, name): a record survives de-duplication exactly when it
is the last record with its triple (last writer wins), the result carries
pairwise-distinct triples, and two site entries both requesting an `A`
record for `www.example.com` yield exactly one desired record. -/
theorem dedupe_last_writer_wins :
    (∀ rs r, r ∈ dedupe rs ↔
      (rs.filter (fun x => x.key = r.key)).getLast? = some r) ∧
    (∀ rs, ((dedupe rs).map DesiredRecord.key).Nodup) ∧
    build_desired_records detectUnused cfgTwoSites =
      .ok [⟨"", "A", "www.example.com", "1.2.3.4", 1, true⟩] :=
  ⟨dedupe_mem_iff, dedupe_keys_nodup, rfl⟩

theorem dedupe_last_writer_wins_witness :
    (⟨"example.com", "A", "www.example.com", "9.9.9.9", 300, true⟩ : DesiredRecord) ∈
      dedupe [recW, ⟨"example.com", "A", "www.example.com", "9.9.9.9", 300, true⟩] :=
  (dedupe_last_writer_wins.1
    [recW, ⟨"example.com", "A", "www.example.com", "9.9.9.9", 300, true⟩]
    ⟨"example.com", "A", "www.example.com", "9.9.9.9", 300, true⟩).mpr rfl

/-! ## Claim theorems: zone resolution -/

theorem foldl_maxlen_mem (ms : List String) : ∀ m : String,
    ms.foldl (fun best z => if z.length > best.length then z else best) m ∈ m :: ms := by
  induction ms with
  | nil => intro m; simp
  | cons y ys ih =>
      intro m
      show (ys.foldl _ (if y.length > m.length then y else m)) ∈ m :: y :: ys
      by_cases h : y.length > m.length
      · rw [if_pos h]
        exact List.mem_cons_of_mem m (ih y)
      · rw [if_neg h]
        rcases List.mem_cons.mp (ih m) with h1 | h1
        · rw [h1]; exact List.mem_cons_self m (y :: ys)
        · exact List.mem_cons_of_mem m (List.mem_cons_of_mem y h1)

theorem foldl_maxlen_ge (ms : List String) : ∀ (m x : String), x ∈ m :: ms →
    x.length ≤
      (ms.foldl (fun best z => if z.length > best.length then z else best) m).length := by
  induction ms with
  | nil =>
      intro m x hx
      rcases List.mem_singleton.mp hx with rfl
      simp
  | cons y ys ih =>
      intro m x hx
      show x.length ≤ (ys.foldl _ (if y.length > m.length then y else m)).length
      by_cases h : y.length > m.length
      · rw [if_pos h]
        rcases List.mem_cons.mp hx with rfl | hx'
        · exact le_trans (le_of_lt h) (ih y y (List.mem_cons_self y ys))
        · exact ih y x hx'
      · rw [if_neg h]
        rcases List.mem_cons.mp hx with rfl | hx'
        · exact ih x x (List.mem_cons_self x ys)
        · rcases List.mem_cons.mp hx' with rfl | hx''
          · exact le_trans (Nat.le_of_not_lt h) (ih m m (List.mem_cons_self m ys))
          · exact ih m x (List.mem_cons_of_mem m hx'')

def cfgZoneMiss : List (String × Val) :=
  [("cloudflare", .vmap [("dns", .vmap
      [("enabled", .vbool true), ("origin_ipv4", .vstr "1.2.3.4")])]),
   ("edge", .vmap [("sites", .vlist
      [.vmap [("tls_domains", .vlist [.vstr "app.dev.example.com"])]])])]

def envTok : String → Option String :=
  fun k => if k == "CF_DNS_API_TOKEN" then some "tok" else none

/-- Claim C5: Zone resolution returns only a zone the name equals or ends
with `"." + zone`; among all matching zones it returns one of maximal
length; when none matches it returns `none`; on the spec's example the
longest suffix `dev.example.com` wins; and a run whose desired name
matches no managed zone aborts with the zone-miss error. -/
theorem pick_zone_longest_suffix :
    (∀ fqdn zone_names z, pick_zone_for_fqdn fqdn zone_names = some z →
        z ∈ zone_names ∧ (fqdn = z ∨ strEndsWith fqdn ("." ++ z) = true) ∧
        ∀ z' ∈ zone_names, (fqdn = z' ∨ strEndsWith fqdn ("." ++ z') = true) →
          z'.length ≤ z.length) ∧
    (∀ fqdn zone_names,
        (∀ z' ∈ zone_names, ¬(fqdn = z' ∨ strEndsWith fqdn ("." ++ z') = true)) →
        pick_zone_for_fqdn fqdn zone_names = none) ∧
    pick_zone_for_fqdn "app.dev.example.com" ["example.com", "dev.example.com"] =
      some "dev.example.com" ∧
    mainRun true "cf-new-id" detectUnused cfgZoneMiss envTok (fun _ => none)
      [⟨"other.com", "z1"⟩] provEmpty =
      .error "No Cloudflare zone found for record name: app.dev.example.com" := by
  refine ⟨?_, ?_, rfl, rfl⟩
  · intro fqdn zone_names z h
    unfold pick_zone_for_fqdn at h
    cases hc : zone_names.filter
        (fun z => fqdn == z || strEndsWith fqdn ("." ++ z)) with
    | nil => rw [hc] at h; exact absurd h (by simp)
    | cons m ms =>
        rw [hc] at h
        have hz : z = ms.foldl (fun best z => if z.length > best.length then z else best) m :=
          (Option.some.inj h).symm
        have hmem : z ∈ m :: ms := hz ▸ foldl_maxlen_mem ms m
        have hmemf : z ∈ zone_names.filter
            (fun z => fqdn == z || strEndsWith fqdn ("." ++ z)) := by
          rw [hc]; exact hmem
        obtain ⟨hzin, hzp⟩ := List.mem_filter.mp hmemf
        refine ⟨hzin, by simpa using hzp, ?_⟩
        · intro z' hz' hz'm
          have : z' ∈ zone_names.filter
              (fun z => fqdn == z || strEndsWith fqdn ("." ++ z)) :=
            List.mem_filter.mpr ⟨hz', by simpa using hz'm⟩
          rw [hc] at this
          exact hz ▸ foldl_maxlen_ge ms m z' this
  · intro fqdn zone_names hall
    unfold pick_zone_for_fqdn
    have : zone_names.filter (fun z => fqdn == z || strEndsWith fqdn ("." ++ z)) = [] := by
      refine List.filter_eq_nil_iff.mpr ?_
      intro z hz hp
      exact hall z hz (by simpa using hp)
    rw [this]

theorem pick_zone_longest_suffix_witness :
    "dev.example.com" ∈ ["example.com", "dev.example.com"] ∧
    ("app.dev.example.com" = "dev.example.com" ∨
      strEndsWith "app.dev.example.com" ("." ++ "dev.example.com") = true) ∧
    ∀ z' ∈ ["example.com", "dev.example.com"],
      ("app.dev.example.com" = z' ∨ strEndsWith "app.dev.example.com" ("." ++ z') = true) →
        z'.length ≤ "dev.example.com".length :=
  pick_zone_longest_suffix.1 "app.dev.example.com" ["example.com", "dev.example.com"]
    "dev.example.com" rfl

/-! ## Claim theorems: public-IP detection -/

/-- Claim C7: Detection returns the first probe outcome that parsed as an
address of the requested version with global scope (so a returned address
is always such an address); every earlier candidate was a transport/parse
failure or a wrong-version/non-global parse; and if no candidate
qualifies, the operation fails carrying the most recent exception. -/
theorem detect_public_ip_first_global :
    (∀ (v : Nat) (rs : List ProbeResult) (acc : Option String) (s : String),
        detect_public_ip v rs acc = .ok s →
        ∃ pre ip post, rs = pre ++ .parsed ip :: post ∧
          (∀ x ∈ pre, probeQualifies v x = false) ∧
          ip.version = v ∧ ip.isGlobal = true ∧ s = ip.text) ∧
    (∀ (v : Nat) (rs : List ProbeResult) (acc : Option String),
        (∀ x ∈ rs, probeQualifies v x = false) →
        detect_public_ip v rs acc = .error (lastErrAfter rs acc)) := by
  constructor
  · intro v rs
    induction rs with
    | nil => intro acc s h; exact absurd h (by simp [detect_public_ip])
    | cons x rest ih =>
        intro acc s h
        cases x with
        | fail e =>
            have hstep : detect_public_ip v (.fail e :: rest) acc =
                detect_public_ip v rest (some e) := rfl
            rw [hstep] at h
            obtain ⟨pre, ip, post, h1, h2, h3, h4, h5⟩ := ih (some e) s h
            refine ⟨.fail e :: pre, ip, post, by rw [h1, List.cons_append], ?_, h3, h4, h5⟩
            intro y hy
            rcases List.mem_cons.mp hy with rfl | hy'
            · rfl
            · exact h2 y hy'
        | parsed ip0 =>
            by_cases hv : ip0.version = v
            · by_cases hg : ip0.isGlobal = true
              · have hstep : detect_public_ip v (.parsed ip0 :: rest) acc = .ok ip0.text := by
                  unfold detect_public_ip
                  rw [if_neg (fun hne => hne hv), if_pos hg]
                rw [hstep] at h
                exact ⟨[], ip0, rest, rfl, by simp, hv, hg, (Except.ok.inj h).symm⟩
              · have hstep : detect_public_ip v (.parsed ip0 :: rest) acc =
                    detect_public_ip v rest acc := by
                  unfold detect_public_ip
                  rw [if_neg (fun hne => hne hv), if_neg hg]
                  cases rest with
                  | nil => rfl
                  | cons hd tl => cases hd <;> rfl
                rw [hstep] at h
                obtain ⟨pre, ip, post, h1, h2, h3, h4, h5⟩ := ih acc s h
                refine ⟨.parsed ip0 :: pre, ip, post, by rw [h1, List.cons_append], ?_, h3, h4, h5⟩
                intro y hy
                rcases List.mem_cons.mp hy with rfl | hy'
                · have : ip0.isGlobal = false := Bool.eq_false_iff.mpr hg
                  simp [probeQualifies, this]
                · exact h2 y hy'
            · have hstep : detect_public_ip v (.parsed ip0 :: rest) acc =
                  detect_public_ip v rest acc := by
                unfold detect_public_ip
                rw [if_pos hv]
                cases rest with
                | nil => rfl
                | cons hd tl => cases hd <;> rfl
              rw [hstep] at h
              obtain ⟨pre, ip, post, h1, h2, h3, h4, h5⟩ := ih acc s h
              refine ⟨.parsed ip0 :: pre, ip, post, by rw [h1, List.cons_append], ?_, h3, h4, h5⟩
              intro y hy
              rcases List.mem_cons.mp hy with rfl | hy'
              · simp [probeQualifies, hv]
              · exact h2 y hy'
  · intro v rs
    induction rs with
    | nil => intro acc _; rfl
    | cons x rest ih =>
        intro acc hall
        cases x with
        | fail e =>
            show detect_public_ip v rest (some e) = .error (lastErrAfter rest (some e))
            exact ih (some e) (fun y hy => hall y (List.mem_cons_of_mem _ hy))
        | parsed ip0 =>
            have hq := hall (.parsed ip0) (List.mem_cons_self _ _)
            by_cases hv : ip0.version = v
            · have hg : ip0.isGlobal = false := by
                simpa [probeQualifies, hv] using hq
              have hstep : detect_public_ip v (.parsed ip0 :: rest) acc =
                  detect_public_ip v rest acc := by
                unfold detect_public_ip
                rw [if_neg (fun hne => hne hv), if_neg (by simp [hg])]
                cases rest with
                | nil => rfl
                | cons hd tl => cases hd <;> rfl
              rw [hstep]
              exact ih acc (fun y hy => hall y (List.mem_cons_of_mem _ hy))
            · have hstep : detect_public_ip v (.parsed ip0 :: rest) acc =
                  detect_public_ip v rest acc := by
                unfold detect_public_ip
                rw [if_pos hv]
                cases rest with
                | nil => rfl
                | cons hd tl => cases hd <;> rfl
              rw [hstep]
              exact ih acc (fun y hy => hall y (List.mem_cons_of_mem _ hy))

theorem detect_public_ip_first_global_witness :
    (∃ pre ip post,
      ([.fail "timeout", .parsed ⟨4, false, "10.0.0.1"⟩, .parsed ⟨4, true, "8.8.8.8"⟩]
          : List ProbeResult) = pre ++ .parsed ip :: post ∧
        (∀ x ∈ pre, probeQualifies 4 x = false) ∧
        ip.version = 4 ∧ ip.isGlobal = true ∧ "8.8.8.8" = ip.text) ∧
    detect_public_ip 4
      [.fail "timeout", .parsed ⟨6, true, "2001:db8::1"⟩, .parsed ⟨4, false, "127.0.0.1"⟩]
      none =
      .error (lastErrAfter
        [.fail "timeout", .parsed ⟨6, true, "2001:db8::1"⟩, .parsed ⟨4, false, "127.0.0.1"⟩]
        none) :=
  ⟨detect_public_ip_first_global.1 4
      [.fail "timeout", .parsed ⟨4, false, "10.0.0.1"⟩, .parsed ⟨4, true, "8.8.8.8"⟩]
      none "8.8.8.8" rfl,
   detect_public_ip_first_global.2 4
      [.fail "timeout", .parsed ⟨6, true, "2001:db8::1"⟩, .parsed ⟨4, false, "127.0.0.1"⟩]
      none (by decide)⟩

/-! ## Claim theorems: disabled feature, token resolution -/

/-- Unfolding of `build_desired_records` once the `cloudflare` mapping is
known. -/
theorem build_eq_dns (detect : Nat → Except String String) (cfg cf : List (String × Val))
    (hcf : cfg.lookup "cloudflare" = some (.vmap cf)) :
    build_desired_records detect cfg =
      (match cf.lookup "dns" with
       | none => .ok []
       | some .vnull => .ok []
       | some (.vmap dns_cfg) =>
           if !as_bool (getVal dns_cfg "enabled") false then .ok []
           else buildEnabled detect cfg cf dns_cfg
       | some _ => .error "cloudflare.dns must be a mapping") := by
  unfold build_desired_records
  rw [hcf]

/-- Claim C4: For every configuration whose `cloudflare` section is a mapping
in which the DNS feature is absent (`dns` missing or null) or disabled
(`enabled` falsy), the desired-record builder returns the empty list and
the whole run is a successful no-op: exit code 0, no actions, provider
untouched.  (A configuration without a `cloudflare` mapping is a
configuration-shape error, which by design fails the run.) -/
theorem dns_disabled_noop (applyMode : Bool) (fid : String)
    (detect : Nat → Except String String) (cfg : List (String × Val))
    (env secrets : String → Option String) (zones : List ZoneInfo) (st : Provider)
    (cf : List (String × Val)) (hcf : cfg.lookup "cloudflare" = some (.vmap cf))
    (hdns : cf.lookup "dns" = none ∨ cf.lookup "dns" = some .vnull ∨
      ∃ m, cf.lookup "dns" = some (.vmap m) ∧ as_bool (getVal m "enabled") false = false) :
    build_desired_records detect cfg = .ok [] ∧
      mainRun applyMode fid detect cfg env secrets zones st = .ok ([], st, 0) := by
  have hbuild : build_desired_records detect cfg = .ok [] := by
    rw [build_eq_dns detect cfg cf hcf]
    rcases hdns with h | h | ⟨m, h, he⟩
    · rw [h]
    · rw [h]
    · rw [h]
      simp [he]
  refine ⟨hbuild, ?_⟩
  unfold mainRun
  rw [hbuild]
  rfl

def cfgDisabled : List (String × Val) :=
  [("cloudflare", .vmap [("dns", .vmap [("enabled", .vbool false)])]),
   ("edge", .vmap [("sites", .vlist
      [.vmap [("tls_domains", .vlist [.vstr "www.example.com"])]])])]

theorem dns_disabled_noop_witness :
    build_desired_records detectUnused cfgDisabled = .ok [] ∧
      mainRun true "cf-new-id" detectUnused cfgDisabled envTok (fun _ => none) [] provEmpty =
        .ok ([], provEmpty, 0) :=
  dns_disabled_noop true "cf-new-id" detectUnused cfgDisabled envTok (fun _ => none) []
    provEmpty [("dns", .vmap [("enabled", .vbool false)])] rfl
    (Or.inr (Or.inr ⟨[("enabled", .vbool false)], rfl, rfl⟩))

/-- Claim C10: Token resolution: when the configured token-variable name is
empty in both the process environment and the secrets file, the resolver
falls back to the literal key `CF_DNS_API_TOKEN` in the secrets file; it
yields nothing exactly when all three lookups are empty; and a run with
all three lookups empty aborts with the missing-token error. -/
theorem token_fallback :
    (∀ (name : String) (env secrets : String → Option String),
      (env name).getD "" = "" → (secrets name).getD "" = "" →
      resolve_token name env secrets =
        (if (secrets "CF_DNS_API_TOKEN").getD "" = "" then none
         else some ((secrets "CF_DNS_API_TOKEN").getD ""))) ∧
    (∀ (name : String) (env secrets : String → Option String),
      resolve_token name env secrets = none ↔
        ((env name).getD "" = "" ∧ (secrets name).getD "" = "" ∧
         (secrets "CF_DNS_API_TOKEN").getD "" = "")) ∧
    mainRun true "cf-new-id" detectUnused cfgZoneMiss (fun _ => none) (fun _ => none)
      [⟨"example.com", "z1"⟩] provEmpty =
      .error "Missing Cloudflare API token. Put CF_DNS_API_TOKEN=... into the secrets file (or export it)." := by
  refine ⟨?_, ?_, rfl⟩
  · intro name env secrets h1 h2
    unfold resolve_token
    by_cases hc : (secrets "CF_DNS_API_TOKEN").getD "" = ""
    · simp [h1, h2, hc]
    · simp [h1, h2, hc]
  · intro name env secrets
    unfold resolve_token
    by_cases ha : (env name).getD "" = ""
    · by_cases hb : (secrets name).getD "" = ""
      · by_cases hc : (secrets "CF_DNS_API_TOKEN").getD "" = ""
        · simp [ha, hb, hc]
        · simp [ha, hb, hc]
      · simp [ha, hb]
    · simp [ha]

def secretsW : String → Option String :=
  fun k => if k == "CF_DNS_API_TOKEN" then some "sek" else none

theorem token_fallback_witness :
    resolve_token "MY_TOKEN" (fun _ => none) secretsW =
      (if (secretsW "CF_DNS_API_TOKEN").getD "" = "" then none
       else some ((secretsW "CF_DNS_API_TOKEN").getD "")) :=
  token_fallback.1 "MY_TOKEN" (fun _ => none) secretsW rfl rfl

/-! ## Builder inversion lemmas -/

/-- Inversion of a successful enabled-phase build. -/
theorem buildEnabled_inv (detect : Nat → Except String String)
    (cfg cf dns_cfg : List (String × Val)) (recs : List DesiredRecord)
    (h : buildEnabled detect cfg cf dns_cfg = .ok recs) :
    ∃ o4 o6 t sites, resolveOrigin4 detect dns_cfg = .ok o4 ∧
      resolveOrigin6 detect dns_cfg = .ok o6 ∧ resolveTtl dns_cfg = .ok t ∧
      extractSites cfg = .ok sites ∧
      recs = emitRecords o4 o6 t (as_bool (getVal cf "proxy_enabled") true)
        (sortedFqdns sites) := by
  cases h4 : resolveOrigin4 detect dns_cfg with
  | error e =>
      have hbe : buildEnabled detect cfg cf dns_cfg = .error e := by
        unfold buildEnabled; rw [h4]
      rw [hbe] at h; exact absurd h (by simp)
  | ok o4 =>
      cases h6 : resolveOrigin6 detect dns_cfg with
      | error e =>
          have hbe : buildEnabled detect cfg cf dns_cfg = .error e := by
            unfold buildEnabled; rw [h4]; rw [h6]
          rw [hbe] at h; exact absurd h (by simp)
      | ok o6 =>
          cases ht : resolveTtl dns_cfg with
          | error e =>
              have hbe : buildEnabled detect cfg cf dns_cfg = .error e := by
                unfold buildEnabled; rw [h4]; rw [h6]; rw [ht]
              rw [hbe] at h; exact absurd h (by simp)
          | ok t =>
              cases hs : extractSites cfg with
              | error e =>
                  have hbe : buildEnabled detect cfg cf dns_cfg = .error e := by
                    unfold buildEnabled; rw [h4]; rw [h6]; rw [ht]; rw [hs]
                  rw [hbe] at h; exact absurd h (by simp)
              | ok sites =>
                  have hbe : buildEnabled detect cfg cf dns_cfg =
                      .ok (emitRecords o4 o6 t
                        (as_bool (getVal cf "proxy_enabled") true) (sortedFqdns sites)) := by
                    unfold buildEnabled; rw [h4]; rw [h6]; rw [ht]; rw [hs]
                  rw [hbe] at h
                  exact ⟨o4, o6, t, sites, rfl, rfl, rfl, rfl, (Except.ok.inj h).symm⟩

/-- Every emitted record carries the resolved ttl. -/
theorem emitRecords_ttl (o4 o6 : String) (t : Int) (p : Bool) (fqdns : List String) :
    ∀ r ∈ emitRecords o4 o6 t p fqdns, r.ttl = t := by
  intro r hr
  unfold emitRecords at hr
  obtain ⟨f, hf, hrm⟩ := List.mem_flatMap.mp hr
  rcases List.mem_cons.mp hrm with rfl | h2
  · rfl
  · by_cases h6 : o6 ≠ ""
    · rw [if_pos h6] at h2
      rcases List.mem_singleton.mp h2 with rfl
      rfl
    · rw [if_neg h6] at h2
      exact absurd h2 (List.not_mem_nil r)

/-! ## Claim theorems: time-to-live -/

def cfgTtlNeg : List (String × Val) :=
  [("cloudflare", .vmap [("dns", .vmap
      [("enabled", .vbool true), ("origin_ipv4", .vstr "1.2.3.4"),
       ("ttl", .vint (-5))])]),
   ("edge", .vmap [("sites", .vlist
      [.vmap [("tls_domains", .vlist [.vstr "a.example.com"])]])])]

def recNeg : DesiredRecord := ⟨"", "A", "a.example.com", "1.2.3.4", -5, true⟩

/-- Claim C8, counterexample: With a configured `ttl` of `-5` (truthy), the
builder emits a desired record whose time-to-live is `-5`, which is less
than 1: no minimum of 1 is enforced. -/
theorem ttl_minimum_counterexample :
    build_desired_records detectUnused cfgTtlNeg = .ok [recNeg] ∧ recNeg.ttl < 1 :=
  ⟨rfl, by decide⟩

/-- Claim C8, amended: Every DesiredRecord produced by the builder carries the
integer conversion of the configured ttl; that ttl equals exactly 1
whenever the configured ttl is unset or falsy, but truthy values below 1
pass through unchecked. -/
theorem ttl_from_config (detect : Nat → Except String String)
    (cfg cf dns_cfg : List (String × Val)) (recs : List DesiredRecord) (t : Int)
    (hcf : cfg.lookup "cloudflare" = some (.vmap cf))
    (hdns : cf.lookup "dns" = some (.vmap dns_cfg))
    (ht : resolveTtl dns_cfg = .ok t)
    (hok : build_desired_records detect cfg = .ok recs) :
    (∀ r ∈ recs, r.ttl = t) ∧
    ((getVal dns_cfg "ttl" = none ∨
      (∃ v, getVal dns_cfg "ttl" = some v ∧ truthy v = false)) → t = 1) := by
  constructor
  · rw [build_eq_dns detect cfg cf hcf, hdns] at hok
    by_cases he : as_bool (getVal dns_cfg "enabled") false = true
    · rw [show (match some (Val.vmap dns_cfg) with
            | none => (.ok [] : Except String (List DesiredRecord))
            | some .vnull => .ok []
            | some (.vmap dns_cfg) =>
                if !as_bool (getVal dns_cfg "enabled") false then .ok []
                else buildEnabled detect cfg cf dns_cfg
            | some _ => .error "cloudflare.dns must be a mapping") =
          (if !as_bool (getVal dns_cfg "enabled") false then .ok []
           else buildEnabled detect cfg cf dns_cfg) from rfl] at hok
      rw [he] at hok
      simp only [Bool.not_true, Bool.false_eq_true, if_false] at hok
      obtain ⟨o4, o6, t', sites, -, -, ht', -, hrecs⟩ :=
        buildEnabled_inv detect cfg cf dns_cfg recs hok
      have htt : t' = t := by
        rw [ht'] at ht
        exact Except.ok.inj ht
      subst htt
      rw [hrecs]
      exact emitRecords_ttl o4 o6 t' _ _
    · rw [show (match some (Val.vmap dns_cfg) with
            | none => (.ok [] : Except String (List DesiredRecord))
            | some .vnull => .ok []
            | some (.vmap dns_cfg) =>
                if !as_bool (getVal dns_cfg "enabled") false then .ok []
                else buildEnabled detect cfg cf dns_cfg
            | some _ => .error "cloudflare.dns must be a mapping") =
          (if !as_bool (getVal dns_cfg "enabled") false then .ok []
           else buildEnabled detect cfg cf dns_cfg) from rfl] at hok
      rw [Bool.not_eq_true] at he
      rw [he] at hok
      simp only [Bool.not_false, if_true] at hok
      have : recs = [] := (Except.ok.inj hok).symm
      rw [this]
      intro r hr
      exact absurd hr (List.not_mem_nil r)
  · intro hfalsy
    rcases hfalsy with hnone | ⟨v, hv, hfv⟩
    · have h1 : resolveTtl dns_cfg = .ok 1 := by
        unfold resolveTtl; rw [hnone]
      rw [h1] at ht
      exact (Except.ok.inj ht).symm
    · have h1 : resolveTtl dns_cfg = .ok 1 := by
        unfold resolveTtl; rw [hv]
        rw [show (match some v with
              | none => (.ok 1 : Except String Int)
              | some v => pyInt (if truthy v then v else .vint 1)) =
            pyInt (if truthy v then v else .vint 1) from rfl]
        rw [hfv]
        rfl
      rw [h1] at ht
      exact (Except.ok.inj ht).symm

theorem ttl_from_config_witness :
    (∀ r ∈ [(⟨"", "A", "www.example.com", "1.2.3.4", 1, true⟩ : DesiredRecord)],
      r.ttl = 1) ∧
    ((getVal [("enabled", Val.vbool true), ("origin_ipv4", Val.vstr "1.2.3.4")] "ttl" = none ∨
      (∃ v, getVal [("enabled", Val.vbool true), ("origin_ipv4", Val.vstr "1.2.3.4")] "ttl" =
          some v ∧ truthy v = false)) → (1 : Int) = 1) :=
  ttl_from_config detectUnused cfgTwoSites
    [("dns", .vmap [("enabled", .vbool true), ("origin_ipv4", .vstr "1.2.3.4")])]
    [("enabled", Val.vbool true), ("origin_ipv4", Val.vstr "1.2.3.4")]
    [⟨"", "A", "www.example.com", "1.2.3.4", 1, true⟩] 1 rfl rfl rfl rfl

/-! ## FQDN collection lemmas -/

/-- The names one site entry contributes to the desired set. -/
def siteNames : Val → List String
  | .vmap m =>
      match m.lookup "tls_domains" with
      | some (.vlist tls) =>
          (tls.map (fun d => pyStrip (pyStr d))).filter
            (fun ds => ds != "" && is_fqdn ds)
      | _ => []
  | _ => []

theorem collect_step (acc : List String) (s : Val) :
    (match s with
     | Val.vmap m =>
         match m.lookup "tls_domains" with
         | some (.vlist tls) =>
             acc ++ (tls.map (fun d => pyStrip (pyStr d))).filter
               (fun ds => ds != "" && is_fqdn ds)
         | _ => acc
     | _ => acc) = acc ++ siteNames s := by
  cases s with
  | vmap m =>
      cases hm : m.lookup "tls_domains" with
      | none => simp [siteNames, hm]
      | some v => cases v <;> simp [siteNames, hm]
  | vnull => simp [siteNames]
  | vbool b => simp [siteNames]
  | vint n => simp [siteNames]
  | vstr s => simp [siteNames]
  | vlist l => simp [siteNames]

theorem collectFqdns_aux (sites : List Val) : ∀ acc : List String,
    sites.foldl
      (fun acc s =>
        match s with
        | Val.vmap m =>
            match m.lookup "tls_domains" with
            | some (.vlist tls) =>
                acc ++ (tls.map (fun d => pyStrip (pyStr d))).filter
                  (fun ds => ds != "" && is_fqdn ds)
            | _ => acc
        | _ => acc)
      acc = acc ++ sites.flatMap siteNames := by
  induction sites with
  | nil => intro acc; simp
  | cons s rest ih =>
      intro acc
      show rest.foldl _ _ = acc ++ (siteNames s ++ rest.flatMap siteNames)
      rw [ih]
      simp only [collect_step]
      rw [List.append_assoc]

theorem siteNames_mem (s : Val) (n : String) :
    n ∈ siteNames s ↔
      ∃ m, s = Val.vmap m ∧ ∃ tls, m.lookup "tls_domains" = some (.vlist tls) ∧
        (∃ d ∈ tls, pyStrip (pyStr d) = n) ∧ n ≠ "" ∧ is_fqdn n = true := by
  cases s with
  | vmap m =>
      cases hm : m.lookup "tls_domains" with
      | none => simp [siteNames, hm]
      | some v =>
          cases v with
          | vlist tls =>
              simp only [siteNames, hm, List.mem_filter, List.mem_map]
              constructor
              · rintro ⟨⟨d, hd, hdn⟩, hp⟩
                have hand := (Bool.and_eq_true ..).mp hp
                exact ⟨m, rfl, tls, hm, ⟨d, hd, hdn⟩, by simpa using hand.1, hand.2⟩
              · rintro ⟨m', hm', tls', htls', ⟨d, hd, hdn⟩, hne, hfq⟩
                obtain rfl : m = m' := Val.vmap.inj hm'
                rw [hm] at htls'
                obtain rfl : tls = tls' := Val.vlist.inj (Option.some.inj htls')
                exact ⟨⟨d, hd, hdn⟩, (Bool.and_eq_true ..).mpr ⟨by simpa using hne, hfq⟩⟩
          | vnull => simp [siteNames, hm]
          | vbool b => simp [siteNames, hm]
          | vint k => simp [siteNames, hm]
          | vstr t => simp [siteNames, hm]
          | vmap m2 => simp [siteNames, hm]
  | vnull => simp [siteNames]
  | vbool b => simp [siteNames]
  | vint k => simp [siteNames]
  | vstr t => simp [siteNames]
  | vlist l => simp [siteNames]

theorem collectFqdns_mem (sites : List Val) (n : String) :
    n ∈ collectFqdns sites ↔
      ∃ s ∈ sites, ∃ m, s = Val.vmap m ∧
        ∃ tls, m.lookup "tls_domains" = some (.vlist tls) ∧
          (∃ d ∈ tls, pyStrip (pyStr d) = n) ∧ n ≠ "" ∧ is_fqdn n = true := by
  unfold collectFqdns
  rw [collectFqdns_aux sites [], List.nil_append, List.mem_flatMap]
  constructor
  · rintro ⟨s, hs, hn⟩
    exact ⟨s, hs, (siteNames_mem s n).mp hn⟩
  · rintro ⟨s, hs, h⟩
    exact ⟨s, hs, (siteNames_mem s n).mpr h⟩

theorem insertSortedStr_mem (n y : String) (l : List String) :
    n ∈ insertSortedStr y l ↔ n = y ∨ n ∈ l := by
  induction l with
  | nil => simp [insertSortedStr]
  | cons z zs ih =>
      unfold insertSortedStr
      by_cases h : strLe y z
      · rw [if_pos h]
        simp
      · rw [if_neg h]
        simp only [List.mem_cons, ih]
        tauto

theorem foldr_insertSorted_mem (l : List String) (n : String) :
    n ∈ l.foldr insertSortedStr [] ↔ n ∈ l := by
  induction l with
  | nil => simp
  | cons x xs ih => simp [List.foldr, insertSortedStr_mem, ih]

theorem dedupStr_mem (l : List String) (n : String) : n ∈ dedupStr l ↔ n ∈ l := by
  induction l with
  | nil => simp [dedupStr]
  | cons x xs ih =>
      unfold dedupStr
      by_cases h : x ∈ xs
      · rw [if_pos h, ih]
        constructor
        · exact fun h2 => List.mem_cons_of_mem x h2
        · rintro h2
          rcases List.mem_cons.mp h2 with rfl | h3
          · exact h
          · exact h3
      · rw [if_neg h]
        simp [ih]

theorem sortedFqdns_mem (sites : List Val) (n : String) :
    n ∈ sortedFqdns sites ↔ n ∈ collectFqdns sites := by
  unfold sortedFqdns
  rw [foldr_insertSorted_mem, dedupStr_mem]

/-- The names of the emitted records are exactly the sorted names. -/
theorem emitRecords_names (o4 o6 : String) (t : Int) (p : Bool) (fqdns : List String)
    (n : String) :
    (∃ r ∈ emitRecords o4 o6 t p fqdns, r.name = n) ↔ n ∈ fqdns := by
  constructor
  · rintro ⟨r, hr, hname⟩
    obtain ⟨f, hf, hrm⟩ := List.mem_flatMap.mp hr
    rcases List.mem_cons.mp hrm with rfl | h2
    · rw [← hname]
      exact hf
    · by_cases h6 : o6 ≠ ""
      · rw [if_pos h6] at h2
        rcases List.mem_singleton.mp h2 with rfl
        rw [← hname]
        exact hf
      · rw [if_neg h6] at h2
        exact absurd h2 (List.not_mem_nil r)
  · intro hn
    exact ⟨⟨"", "A", n, o4, t, p⟩,
      List.mem_flatMap.mpr ⟨n, hn, List.mem_cons_self _ _⟩, rfl⟩

/-! ## Claim theorems: FQDN shape filtering -/

def cfgMixed : List (String × Val) :=
  [("cloudflare", .vmap [("dns", .vmap
      [("enabled", .vbool true), ("origin_ipv4", .vstr "1.2.3.4")])]),
   ("edge", .vmap [("sites", .vlist
      [.vmap [("tls_domains", .vlist
        [.vstr "not a domain", .vstr "sub.example.com"])]])])]

def recSub : DesiredRecord := ⟨"", "A", "sub.example.com", "1.2.3.4", 1, true⟩

/-- Claim C6: The collected desired set contains exactly the (trimmed)
configured TLS-domain names that pass the FQDN shape check `is_fqdn`;
`"sub.example.com"` passes while `"not a domain"` fails; the names of the
built desired records are exactly the collected names; and a configuration
holding a malformed name alongside a well-formed one builds successfully
with only the well-formed name. -/
theorem fqdn_shape_filter :
    (∀ sites n, n ∈ collectFqdns sites ↔
      ∃ s ∈ sites, ∃ m, s = Val.vmap m ∧
        ∃ tls, m.lookup "tls_domains" = some (.vlist tls) ∧
          (∃ d ∈ tls, pyStrip (pyStr d) = n) ∧ n ≠ "" ∧ is_fqdn n = true) ∧
    is_fqdn "sub.example.com" = true ∧
    is_fqdn "not a domain" = false ∧
    (∀ (detect : Nat → Except String String) (cfg cf dns_cfg : List (String × Val))
        (sites : List Val) (recs : List DesiredRecord),
        cfg.lookup "cloudflare" = some (.vmap cf) →
        cf.lookup "dns" = some (.vmap dns_cfg) →
        as_bool (getVal dns_cfg "enabled") false = true →
        extractSites cfg = .ok sites →
        build_desired_records detect cfg = .ok recs →
        ∀ n, (∃ r ∈ recs, r.name = n) ↔ n ∈ collectFqdns sites) ∧
    build_desired_records detectUnused cfgMixed = .ok [recSub] := by
  refine ⟨collectFqdns_mem, by decide, by decide, ?_, rfl⟩
  intro detect cfg cf dns_cfg sites recs hcf hdns hen hsites hok n
  rw [build_eq_dns detect cfg cf hcf, hdns] at hok
  rw [show (match some (Val.vmap dns_cfg) with
        | none => (.ok [] : Except String (List DesiredRecord))
        | some .vnull => .ok []
        | some (.vmap dns_cfg) =>
            if !as_bool (getVal dns_cfg "enabled") false then .ok []
            else buildEnabled detect cfg cf dns_cfg
        | some _ => .error "cloudflare.dns must be a mapping") =
      (if !as_bool (getVal dns_cfg "enabled") false then .ok []
       else buildEnabled detect cfg cf dns_cfg) from rfl] at hok
  rw [hen] at hok
  simp only [Bool.not_true, Bool.false_eq_true, if_false] at hok
  obtain ⟨o4, o6, t, sites', -, -, -, hs', hrecs⟩ :=
    buildEnabled_inv detect cfg cf dns_cfg recs hok
  have hss : sites' = sites := by
    rw [hsites] at hs'
    exact (Except.ok.inj hs').symm
  subst hss
  rw [hrecs, emitRecords_names, sortedFqdns_mem]

theorem fqdn_shape_filter_witness :
    (∃ r ∈ [recSub], r.name = "sub.example.com") ↔
      "sub.example.com" ∈ collectFqdns
        [Val.vmap [("tls_domains", Val.vlist
          [Val.vstr "not a domain", Val.vstr "sub.example.com"])]] :=
  fqdn_shape_filter.2.2.2.1 detectUnused cfgMixed
    [("dns", .vmap [("enabled", .vbool true), ("origin_ipv4", .vstr "1.2.3.4")])]
    [("enabled", Val.vbool true), ("origin_ipv4", Val.vstr "1.2.3.4")]
    [Val.vmap [("tls_domains", Val.vlist
      [Val.vstr "not a domain", Val.vstr "sub.example.com"])]]
    [recSub] rfl rfl rfl rfl rfl "sub.example.com"

end WpSetup
